import Mathlib

set_option maxRecDepth 8000

/-! Shallow embedding of the BuildBotStatusLight repository:
`light_controller/ir_toy/ir_toy.py` (class IR_Toy) and
`light_controller/light_controller.py` (class LightController).

Device-to-host bytes are modelled as an explicit list `input : List Nat`
consumed in order by each `read`; a read that would block forever because
the stream is exhausted is modelled as an I/O fault.  Host-to-device
writes are collected into a `writes` list (the serial `write` is blocking
and writes its whole buffer, returning its length).  Python exceptions
are modelled with `Except PyErr`; the value `None` that a Python function
returns when it falls off the end is `Option.none` inside `Except.ok`. -/

/-- Kinds of Python exceptions the embedded code can raise: `ValueError`
(argument validation, `bytearray` range errors, `int()` parse errors) and
serial I/O failures. -/
inductive PyErr where
  | valueError
  | ioError
deriving DecidableEq

/-- `IR_Toy.TERMINATOR`: the sentinel `0xFF 0xFF` ending every IR code. -/
def TERMINATOR : List Int := [255, 255]

/-- Python slice `l[-2:]`: the last two elements (the whole list when it is
shorter than two). -/
def lastTwo {α : Type} (l : List α) : List α := l.drop (l.length - 2)

/-- `bytearray(data)` accepts only values `0 ≤ v < 256`, raising
`ValueError` otherwise (`IR_Toy.writeArray`). -/
def byteOk (v : Int) : Bool := decide (0 ≤ v ∧ v < 256)

/-- Bytes written by `IR_Toy.reset`: the terminator followed by five
`0x00` reset opcodes. -/
def resetWrites : List Int := [255, 255, 0, 0, 0, 0, 0]

/-- Bytes written by `IR_Toy.setSamplingMode`: a reset followed by the
ASCII byte `S` (it then reads 3 protocol-version bytes). -/
def samplingWrites : List Int := resetWrites ++ [83]

/-- Bytes written by `IR_Toy.setTransmitMode` before reading the initial
credit: enable handshake `0x26`, byte count `0x24`, notify-on-complete
`0x25`, then the transmit opcode `0x03`. -/
def txSetupWrites : List Int := [38, 36, 37, 3]

/-- The send loop of `IR_Toy.transmitCode` (lines 332-336): while
`bytesSent < len(code)`, write the slice `code[idx:idx+bufferSize]`
(raising inside `bytearray` if a value is out of byte range), advance
`idx` and `bytesSent` by the number of bytes written, then read one byte
giving the next credit.  Result: (the loop finished without an exception,
the `(credit, chunk)` pairs actually written where the credit is the one
in force when the chunk was written, the remaining device input).  When
the credit read hits an exhausted stream the chunk before it was already
written; a `bytearray` failure writes nothing. -/
def sendLoop (code : List Int) (idx bytesSent bufferSize : Nat) :
    List Nat → Bool × List (Nat × List Int) × List Nat
  | [] =>
    if bytesSent < code.length then
      if ((code.drop idx).take bufferSize).all byteOk then
        (false, [(bufferSize, (code.drop idx).take bufferSize)], [])
      else (false, [], [])
    else (true, [], [])
  | c :: rest =>
    if bytesSent < code.length then
      if ((code.drop idx).take bufferSize).all byteOk then
        ((sendLoop code (idx + ((code.drop idx).take bufferSize).length)
            (bytesSent + ((code.drop idx).take bufferSize).length) c rest).1,
         (bufferSize, (code.drop idx).take bufferSize) ::
           (sendLoop code (idx + ((code.drop idx).take bufferSize).length)
             (bytesSent + ((code.drop idx).take bufferSize).length) c rest).2.1,
         (sendLoop code (idx + ((code.drop idx).take bufferSize).length)
           (bytesSent + ((code.drop idx).take bufferSize).length) c rest).2.2)
      else (false, [], c :: rest)
    else (true, [], c :: rest)

/-- Flattened payload bytes of a chunk list. -/
def chunksFlat (chs : List (Nat × List Int)) : List Int := (chs.map Prod.snd).flatten

deriving instance DecidableEq for Except

/-- The `finally: self.setSamplingMode()` clause: a reset, the `S` byte,
then a 3-byte read of the protocol version.  If fewer than 3 bytes remain
the read blocks on a dead stream, modelled as an I/O fault that (per
Python semantics) replaces the outcome of the `try` body. -/
def finallySampling {α : Type} (outcome : Except PyErr α) (rem : List Nat) :
    Except PyErr α :=
  match rem with
  | _ :: _ :: _ :: _ => outcome
  | _ => Except.error PyErr.ioError

/-- Everything observable about one `IR_Toy.transmitCode` call:
the caller-visible result (`ok (some b)` for `return b`, `ok none` for a
Python `None` fall-through, `error e` for an uncaught exception), the
final value of the caller's `code` list (the source may `extend` it in
place), whether the send loop ran to completion, the payload chunks
written, all bytes written, the number of `reset()` calls, whether the
`except:` handler logged an abort, and whether `setSamplingMode` was
invoked before exit. -/
structure TxResult where
  result : Except PyErr (Option Bool)
  codeAfter : List Int
  loopDone : Bool
  chunks : List (Nat × List Int)
  writes : List Int
  resets : Nat
  logged : Bool
  samplingCalled : Bool
deriving DecidableEq

/-- `IR_Toy.transmitCode` (lines 316-351).  Validation first (`ValueError`
for length < 2 or odd, before any I/O); append the terminator in place if
absent; `setTransmitMode` writes the setup bytes and reads the initial
credit (an exception here propagates, before the `try`); then the send
loop, the 50 ms settle, the 4-byte completion report `>BHc`, and the
comparison of the completion byte with `C` (0x43 = 67).  A completion
byte other than `C` resets and returns `False`; an exception inside the
`try` is logged, resets, and falls through to `None`; `finally` always
calls `setSamplingMode`. -/
def transmitCode (code : List Int) (input : List Nat) : TxResult :=
  if code.length < 2 ∨ code.length % 2 = 1 then
    { result := Except.error PyErr.valueError, codeAfter := code, loopDone := false,
      chunks := [], writes := [], resets := 0, logged := false, samplingCalled := false }
  else
    let code2 := if lastTwo code = TERMINATOR then code else code ++ TERMINATOR
    match input with
    | [] =>
      { result := Except.error PyErr.ioError, codeAfter := code2, loopDone := false,
        chunks := [], writes := txSetupWrites, resets := 0, logged := false,
        samplingCalled := false }
    | c0 :: input1 =>
      match sendLoop code2 0 0 c0 input1 with
      | (false, chs, rem) =>
        { result := finallySampling (Except.ok Option.none) rem, codeAfter := code2,
          loopDone := false, chunks := chs,
          writes := txSetupWrites ++ chunksFlat chs ++ resetWrites ++ samplingWrites,
          resets := 2, logged := true, samplingCalled := true }
      | (true, chs, rem) =>
        match rem with
        | _b1 :: _b2 :: _b3 :: b4 :: rem2 =>
          if b4 = 67 then
            { result := finallySampling (Except.ok (Option.some true)) rem2,
              codeAfter := code2, loopDone := true, chunks := chs,
              writes := txSetupWrites ++ chunksFlat chs ++ samplingWrites,
              resets := 1, logged := false, samplingCalled := true }
          else
            { result := finallySampling (Except.ok (Option.some false)) rem2,
              codeAfter := code2, loopDone := true, chunks := chs,
              writes := txSetupWrites ++ chunksFlat chs ++ resetWrites ++ samplingWrites,
              resets := 2, logged := false, samplingCalled := true }
        | _ =>
          { result := finallySampling (Except.ok Option.none) [], codeAfter := code2,
            loopDone := true, chunks := chs,
            writes := txSetupWrites ++ chunksFlat chs ++ resetWrites ++ samplingWrites,
            resets := 2, logged := true, samplingCalled := true }

/-- ASCII decimal digit test on a received byte. -/
def isDigitByte (b : Nat) : Bool := decide (48 ≤ b ∧ b ≤ 57)

/-- Observable outcome of `IR_Toy.getVersion`: caller-visible result
(2-byte hardware identifier, numeric revision), bytes written, and
whether `setSamplingMode` ran before exit. -/
structure VersionResult where
  result : Except PyErr (List Nat × Nat)
  writes : List Int
  samplingCalled : Bool
deriving DecidableEq

/-- `IR_Toy.getVersion` (lines 259-271): inside a `try`, `reset()`, write
the ASCII byte `v` (118), read 4 bytes, unpack as `>2s2s`, and return the
first two bytes with `int(revision)` applied to the last two, i.e. the
two ASCII characters parsed as a decimal number (`ValueError` when they
are not digits); the `finally` clause always calls `setSamplingMode`. -/
def getVersion (input : List Nat) : VersionResult :=
  match input with
  | h1 :: h2 :: r1 :: r2 :: rest =>
    let outcome : Except PyErr (List Nat × Nat) :=
      if isDigitByte r1 && isDigitByte r2 then
        Except.ok ([h1, h2], (r1 - 48) * 10 + (r2 - 48))
      else Except.error PyErr.valueError
    { result := finallySampling outcome rest,
      writes := resetWrites ++ [118] ++ samplingWrites, samplingCalled := true }
  | _ =>
    { result := finallySampling (Except.error PyErr.ioError) [],
      writes := resetWrites ++ [118] ++ samplingWrites, samplingCalled := true }

/-- The capture loop of `IR_Toy.receiveSignal` (lines 305-313): read one
byte at a time, append it to the accumulated code, and stop as soon as
the last two accumulated bytes equal the terminator.  An exhausted stream
means the loop blocks forever, modelled as `none`. -/
def captureLoop (input : List Nat) (acc : List Nat) : Option (List Nat) :=
  match input with
  | [] => none
  | b :: rest =>
    let acc2 := acc ++ [b]
    if lastTwo acc2 = [255, 255] then some acc2 else captureLoop rest acc2

/-- `IR_Toy.receiveSignal` (lines 294-314): `setSamplingMode` first
(which consumes the 3 protocol-version bytes), then the capture loop
starting from an empty code. -/
def receiveSignal (input : List Nat) : Option (List Nat) :=
  match input with
  | _ :: _ :: _ :: rest => captureLoop rest []
  | _ => none

/-- `LightController.buttonNames`: the 24 fixed button names. -/
def buttonNames : List String :=
  ["brightnessDown", "brightnessUp", "off", "on",
   "red", "green", "blue", "white",
   "red2", "green2", "blue2", "flash",
   "orange", "cyan", "purple", "strobe",
   "orange2", "cyan2", "violet", "fade",
   "yellow", "teal", "lavender", "smooth"]

/-- `LightController._colours`: the 16 recognized colour names. -/
def coloursList : List String :=
  ["red", "green", "blue", "white",
   "red2", "green2", "blue2",
   "orange", "cyan", "purple",
   "orange2", "cyan2", "violet",
   "yellow", "teal", "lavender"]

/-- A ButtonMap as held in `LightController._buttons`: an association
list from button name to its recorded code bytes (a JSON object; later
bindings shadow earlier ones never arise in the program, so first match
is the dict lookup). -/
def ButtonMap : Type := List (String × List Int)

/-- Python dict lookup `self._buttons[name]` (None means `KeyError`). -/
def findButton : ButtonMap → String → Option (List Int)
  | [], _ => none
  | (k, v) :: rest, key => if k = key then some v else findButton rest key

/-- What a `LightController.setColour` call does before any serial I/O:
nothing (the name is not a recognized colour, so the guard fails and the
method returns with no I/O), a `transmitCode` of exactly the stored list,
or a `KeyError` from the ButtonMap subscript. -/
inductive ColourAction where
  | noop
  | transmit (code : List Int)
  | keyError
deriving DecidableEq

/-- `LightController.setColour` (lines 114-121): `if colour in
self._colours: self.toy.transmitCode(self._buttons[colour])`. -/
def setColour (buttons : ButtonMap) (colour : String) : ColourAction :=
  if colour ∈ coloursList then
    match findButton buttons colour with
    | some code => ColourAction.transmit code
    | none => ColourAction.keyError
  else ColourAction.noop

/-! The persistence codec.  `LightController.dumpButtons` writes the
ButtonMap with `json.dump` and `loadButtons` reads it back with
`json.load`.  The json library (an external dependency) is modelled here
at the level of the text it exchanges, restricted to the shapes the
program persists: an object mapping string keys to arrays of integers,
with `json.dump`'s default separators (`", "` and `": "`) and `json.load`
accepting whitespace between tokens.  Escape sequences inside strings and
fractional or exponent number forms are not modelled (the parser rejects
them rather than misreading them); button names contain neither quotes
nor backslashes, and the program only ever persists integer arrays. -/

/-- ASCII digit character for a value below 10. -/
def digitChar : Nat → Char
  | 0 => '0'
  | 1 => '1'
  | 2 => '2'
  | 3 => '3'
  | 4 => '4'
  | 5 => '5'
  | 6 => '6'
  | 7 => '7'
  | 8 => '8'
  | 9 => '9'
  | _ => '*'

/-- Numeric value of an ASCII digit character. -/
def digitVal (c : Char) : Nat := c.toNat - 48

/-- Decimal digits of `n`, most significant first; the fuel argument
bounds the recursion depth (any fuel at least `n` is enough). -/
def natCharsAux : Nat → Nat → List Char
  | 0, _ => []
  | fuel + 1, n =>
    if n = 0 then [] else natCharsAux fuel (n / 10) ++ [digitChar (n % 10)]

/-- Decimal representation of a natural number (what `str` produces). -/
def natChars (n : Nat) : List Char := if n = 0 then ['0'] else natCharsAux n n

/-- Decimal representation of an integer (what `json.dump` writes). -/
def intChars (v : Int) : List Char :=
  if v < 0 then '-' :: natChars (-v).toNat else natChars v.toNat

/-- JSON whitespace. -/
def isWs (c : Char) : Bool := decide (c = ' ' ∨ c = '\t' ∨ c = '\n' ∨ c = '\r')

/-- Skip whitespace between tokens. -/
def skipWs (s : List Char) : List Char := s.dropWhile isWs

/-- Read a run of digits, accumulating their value. -/
def parseNatAux : List Char → Nat → Nat × List Char
  | [], acc => (acc, [])
  | c :: rest, acc =>
    if c.isDigit then parseNatAux rest (acc * 10 + digitVal c) else (acc, c :: rest)

/-- Parse an unsigned decimal integer (at least one digit). -/
def parseNat : List Char → Option (Nat × List Char)
  | [] => none
  | c :: rest => if c.isDigit then some (parseNatAux rest (digitVal c)) else none

/-- Parse a JSON integer: an optional minus sign then digits. -/
def parseInt : List Char → Option (Int × List Char)
  | [] => none
  | c :: rest =>
    if c = '-' then
      match parseNat rest with
      | none => none
      | some (n, r) => some (-(n : Int), r)
    else
      match parseNat (c :: rest) with
      | none => none
      | some (n, r) => some ((n : Int), r)

/-- Scan the body of a JSON string up to the closing quote; escape
sequences are not modelled (a backslash is rejected). -/
def parseKeyAux : List Char → List Char → Option (List Char × List Char)
  | [], _ => none
  | c :: rest, acc =>
    if c = '\"' then some (acc.reverse, rest)
    else if c = '\\' then none
    else parseKeyAux rest (c :: acc)

/-- Parse a JSON string used as an object key. -/
def parseKey : List Char → Option (String × List Char)
  | [] => none
  | c :: rest =>
    if c = '\"' then
      match parseKeyAux rest [] with
      | none => none
      | some (k, r) => some (String.mk k, r)
    else none

/-- Parse the remainder of a JSON array after its first element:
either the closing bracket or comma-separated further elements. -/
def parseArrTail : Nat → List Char → Option (List Int × List Char)
  | 0, _ => none
  | fuel + 1, s =>
    match skipWs s with
    | [] => none
    | c :: r =>
      if c = ']' then some ([], r)
      else if c = ',' then
        match parseInt (skipWs r) with
        | none => none
        | some (v, r2) =>
          match parseArrTail fuel r2 with
          | none => none
          | some (vs, r3) => some (v :: vs, r3)
      else none

/-- Parse the elements of a JSON array after the opening bracket. -/
def parseArrElems (fuel : Nat) (s : List Char) : Option (List Int × List Char) :=
  match skipWs s with
  | [] => none
  | c :: r =>
    if c = ']' then some ([], r)
    else
      match parseInt (c :: r) with
      | none => none
      | some (v, r2) =>
        match parseArrTail fuel r2 with
        | none => none
        | some (vs, r3) => some (v :: vs, r3)

/-- Parse a JSON array of integers. -/
def parseArr (fuel : Nat) (s : List Char) : Option (List Int × List Char) :=
  match s with
  | [] => none
  | c :: r => if c = '[' then parseArrElems fuel r else none

/-- Parse one `"key": [...]` object entry. -/
def parseEntry (fuel : Nat) (s : List Char) : Option ((String × List Int) × List Char) :=
  match parseKey (skipWs s) with
  | none => none
  | some (k, r) =>
    match skipWs r with
    | [] => none
    | c :: r2 =>
      if c = ':' then
        match parseArr fuel (skipWs r2) with
        | none => none
        | some (vs, r3) => some ((k, vs), r3)
      else none

/-- Parse the remainder of a JSON object after its first entry. -/
def parseObjTail : Nat → List Char → Option (List (String × List Int) × List Char)
  | 0, _ => none
  | fuel + 1, s =>
    match skipWs s with
    | [] => none
    | c :: r =>
      if c = '\x7d' then some ([], r)
      else if c = ',' then
        match parseEntry fuel r with
        | none => none
        | some (e, r2) =>
          match parseObjTail fuel r2 with
          | none => none
          | some (es, r3) => some (e :: es, r3)
      else none

/-- Parse a JSON object of integer arrays. -/
def parseObj (fuel : Nat) (s : List Char) : Option (List (String × List Int) × List Char) :=
  match s with
  | [] => none
  | c :: r =>
    if c = '\x7b' then
      match skipWs r with
      | [] => none
      | c2 :: r2 =>
        if c2 = '\x7d' then some ([], r2)
        else
          match parseEntry fuel (c2 :: r2) with
          | none => none
          | some (e, r3) =>
            match parseObjTail fuel r3 with
            | none => none
            | some (es, r4) => some (e :: es, r4)
    else none

/-- `json.load` on the program's button files: parse one object and
require only whitespace after it.  The fuel `s.length + 1` dominates
every recursion the input can drive. -/
def jsonLoad (s : List Char) : Option (List (String × List Int)) :=
  match parseObj (s.length + 1) (skipWs s) with
  | none => none
  | some (m, rest) => if skipWs rest = [] then some m else none

/-- Text after the first element of a dumped array: `", v"` per element. -/
def encodeIntsTail : List Int → List Char
  | [] => []
  | v :: vt => ',' :: ' ' :: (intChars v ++ encodeIntsTail vt)

/-- Elements of a dumped array. -/
def encodeInts : List Int → List Char
  | [] => []
  | v :: vt => intChars v ++ encodeIntsTail vt

/-- A dumped JSON array, `[v1, v2, ...]`. -/
def encodeArr (vs : List Int) : List Char := '[' :: (encodeInts vs ++ [']'])

/-- A dumped object entry, `"key": [...]`. -/
def encodeEntry (p : String × List Int) : List Char :=
  '\"' :: (p.1.data ++ '\"' :: ':' :: ' ' :: encodeArr p.2)

/-- Text after the first entry of a dumped object: `, "k": [...]` each. -/
def encodeEntriesTail : List (String × List Int) → List Char
  | [] => []
  | p :: mt => ',' :: ' ' :: (encodeEntry p ++ encodeEntriesTail mt)

/-- `json.dump` of the ButtonMap with the default separators, as written
by `LightController.dumpButtons` (lines 82-88). -/
def jsonDump : List (String × List Int) → List Char
  | [] => ['\x7b', '\x7d']
  | p :: mt => '\x7b' :: (encodeEntry p ++ (encodeEntriesTail mt ++ ['\x7d']))

/-- `LightController.loadButtons` (lines 50-58): a missing file leaves
the current map untouched; otherwise the file is parsed with `json.load`
and, only on full success, assigned to `self._buttons`; a parse failure
raises out of the method with the map unchanged. -/
def loadButtons (file : Option (List Char)) (current : List (String × List Int)) :
    Except PyErr (List (String × List Int)) :=
  match file with
  | none => Except.ok current
  | some text =>
    match jsonLoad text with
    | some m => Except.ok m
    | none => Except.error PyErr.valueError

/-- Decimal value of a digit string (proof-support definition). -/
def valNat (acc : Nat) (ds : List Char) : Nat :=
  ds.foldl (fun a c => a * 10 + digitVal c) acc

/-- The text does not begin with a digit (so a number parse stops). -/
def noDigitStart : List Char → Prop
  | [] => True
  | c :: _ => c.isDigit = false

/-- Key characters that need no JSON escaping. -/
def goodKeyChars (l : List Char) : Prop := ∀ c ∈ l, ¬c = '\"' ∧ ¬c = '\\'

instance goodKeyCharsDec (l : List Char) : Decidable (goodKeyChars l) :=
  inferInstanceAs (Decidable (∀ c ∈ l, ¬c = '\"' ∧ ¬c = '\\'))

/-- A ButtonMap entry in the image of recording or loading: plain key,
integer values (nonnegative suffices for the codec proofs). -/
def goodEntry (p : String × List Int) : Prop :=
  goodKeyChars p.1.data ∧ ∀ v ∈ p.2, 0 ≤ v

/-- Fuel needed by the object parser: one unit per entry and element. -/
def weight : List (String × List Int) → Nat
  | [] => 0
  | p :: mt => p.2.length + 1 + weight mt

/-! Helper lemmas about the driver embedding. -/

theorem lastTwo_append_two {α : Type} (l : List α) (a b : α) :
    lastTwo (l ++ [a, b]) = [a, b] := by
  unfold lastTwo
  have h : (l ++ [a, b]).length - 2 = l.length := by simp
  rw [h]
  induction l with
  | nil => rfl
  | cons x t ih => simp

theorem finallySampling_cases {α : Type} (x : Except PyErr α) (rem : List Nat) :
    finallySampling x rem = x ∨ finallySampling x rem = Except.error PyErr.ioError := by
  rcases rem with _ | ⟨a, _ | ⟨b, _ | ⟨c, r⟩⟩⟩ <;> simp [finallySampling]

theorem finallySampling_ok_ne_valueError {α : Type} (x : α) (rem : List Nat) :
    finallySampling (Except.ok x) rem ≠ Except.error PyErr.valueError := by
  rcases finallySampling_cases (Except.ok x) rem with h | h <;> rw [h] <;> simp

theorem finallySampling_of_long {α : Type} (x : Except PyErr α) (rem : List Nat)
    (h : 3 ≤ rem.length) : finallySampling x rem = x := by
  rcases rem with _ | ⟨a, _ | ⟨b, _ | ⟨c, r⟩⟩⟩ <;> simp at h <;> rfl

theorem captureLoop_lastTwo (input : List Nat) : ∀ acc buf,
    captureLoop input acc = some buf → lastTwo buf = [255, 255] := by
  induction input with
  | nil => intro acc buf h; simp [captureLoop] at h
  | cons b rest ih =>
    intro acc buf h
    simp only [captureLoop] at h
    split at h
    · cases h; assumption
    · exact ih _ _ h

theorem sendLoop_spec (input : List Nat) :
    ∀ (code : List Int) (bytesSent bufferSize : Nat)
      (chs : List (Nat × List Int)) (rem : List Nat),
      bytesSent ≤ code.length →
      sendLoop code bytesSent bytesSent bufferSize input = (true, chs, rem) →
      (chunksFlat chs).length = code.length - bytesSent ∧
      ∀ p ∈ chs, p.2.length ≤ p.1 := by
  induction input with
  | nil =>
    intro code bytesSent bufferSize chs rem hle h
    simp only [sendLoop] at h
    split at h
    · split at h
      · simp at h
      · simp at h
    · simp only [Prod.mk.injEq] at h
      obtain ⟨-, hchs, hrem⟩ := h
      subst hchs
      refine ⟨by simp [chunksFlat]; omega, by intro p hp; simp at hp⟩
  | cons c rest ih =>
    intro code bytesSent bufferSize chs rem hle h
    simp only [sendLoop] at h
    split at h
    case isTrue hlt =>
      split at h
      case isTrue hall =>
        simp only [Prod.mk.injEq] at h
        obtain ⟨hb, hchs, hrem⟩ := h
        have hlen : ((code.drop bytesSent).take bufferSize).length =
            min bufferSize (code.length - bytesSent) := by
          simp [List.length_take, List.length_drop]
        have hle2 : bytesSent + ((code.drop bytesSent).take bufferSize).length ≤
            code.length := by omega
        have h2 : sendLoop code (bytesSent + ((code.drop bytesSent).take bufferSize).length)
            (bytesSent + ((code.drop bytesSent).take bufferSize).length) c rest =
            (true, (sendLoop code (bytesSent + ((code.drop bytesSent).take bufferSize).length)
              (bytesSent + ((code.drop bytesSent).take bufferSize).length) c rest).2.1,
             (sendLoop code (bytesSent + ((code.drop bytesSent).take bufferSize).length)
              (bytesSent + ((code.drop bytesSent).take bufferSize).length) c rest).2.2) := by
          rw [← hb]
        obtain ⟨ihsum, ihbound⟩ := ih code _ c _ _ hle2 h2
        subst hchs
        constructor
        · simp only [chunksFlat, List.map_cons, List.flatten_cons,
            List.length_append] at ihsum ⊢
          omega
        · intro p hp
          rcases List.mem_cons.mp hp with hp1 | hp2
          · subst hp1; simp
          · exact ihbound p hp2
      case isFalse => simp at h
    case isFalse hge =>
      simp only [Prod.mk.injEq] at h
      obtain ⟨-, hchs, hrem⟩ := h
      subst hchs
      refine ⟨by simp [chunksFlat]; omega, by intro p hp; simp at hp⟩

theorem sendLoop_credits (input : List Nat) :
    ∀ (code : List Int) (idx bytesSent bufferSize : Nat)
      (b : Bool) (chs : List (Nat × List Int)) (rem : List Nat),
      sendLoop code idx bytesSent bufferSize input = (b, chs, rem) →
      chs.map Prod.fst = (bufferSize :: input).take chs.length := by
  induction input with
  | nil =>
    intro code idx bytesSent bufferSize b chs rem h
    simp only [sendLoop] at h
    split at h
    · split at h
      · simp only [Prod.mk.injEq] at h
        obtain ⟨-, hchs, -⟩ := h
        subst hchs
        rfl
      · simp only [Prod.mk.injEq] at h
        obtain ⟨-, hchs, -⟩ := h
        subst hchs
        rfl
    · simp only [Prod.mk.injEq] at h
      obtain ⟨-, hchs, -⟩ := h
      subst hchs
      rfl
  | cons c rest ih =>
    intro code idx bytesSent bufferSize b chs rem h
    simp only [sendLoop] at h
    split at h
    · split at h
      · simp only [Prod.mk.injEq] at h
        obtain ⟨-, hchs, -⟩ := h
        subst hchs
        have ih2 := ih code (idx + ((code.drop idx).take bufferSize).length)
          (bytesSent + ((code.drop idx).take bufferSize).length) c
          (sendLoop code (idx + ((code.drop idx).take bufferSize).length)
            (bytesSent + ((code.drop idx).take bufferSize).length) c rest).1
          (sendLoop code (idx + ((code.drop idx).take bufferSize).length)
            (bytesSent + ((code.drop idx).take bufferSize).length) c rest).2.1
          (sendLoop code (idx + ((code.drop idx).take bufferSize).length)
            (bytesSent + ((code.drop idx).take bufferSize).length) c rest).2.2 rfl
        simp only [List.map_cons, List.length_cons, List.take_succ_cons]
        rw [ih2]
      · simp only [Prod.mk.injEq] at h
        obtain ⟨-, hchs, -⟩ := h
        subst hchs
        rfl
    · simp only [Prod.mk.injEq] at h
      obtain ⟨-, hchs, -⟩ := h
      subst hchs
      rfl

theorem transmitCode_codeAfter (code : List Int) (input : List Nat)
    (hbad : ¬(code.length < 2 ∨ code.length % 2 = 1)) :
    (transmitCode code input).codeAfter =
      (if lastTwo code = TERMINATOR then code else code ++ TERMINATOR) := by
  unfold transmitCode
  rw [if_neg hbad]
  cases input with
  | nil => rfl
  | cons c0 input1 =>
    dsimp only
    obtain ⟨b, chs, rem⟩ := sendLoop
      (if lastTwo code = TERMINATOR then code else code ++ TERMINATOR) 0 0 c0 input1
    cases b
    · rfl
    · rcases rem with _ | ⟨b1, _ | ⟨b2, _ | ⟨b3, _ | ⟨b4, rem2⟩⟩⟩⟩ <;> dsimp only <;> try rfl
      by_cases h67 : b4 = 67
      · rw [if_pos h67]
      · rw [if_neg h67]

theorem transmitCode_codeAfter_term (code : List Int) (input : List Nat)
    (hterm : lastTwo code = TERMINATOR) :
    (transmitCode code input).codeAfter = code := by
  by_cases hbad : code.length < 2 ∨ code.length % 2 = 1
  · unfold transmitCode
    rw [if_pos hbad]
  · rw [transmitCode_codeAfter code input hbad, if_pos hterm]

theorem transmitCode_samplingCalled (code : List Int) (input : List Nat)
    (hbad : ¬(code.length < 2 ∨ code.length % 2 = 1)) (hne : input ≠ []) :
    (transmitCode code input).samplingCalled = true := by
  unfold transmitCode
  rw [if_neg hbad]
  cases input with
  | nil => exact absurd rfl hne
  | cons c0 input1 =>
    dsimp only
    obtain ⟨b, chs, rem⟩ := sendLoop
      (if lastTwo code = TERMINATOR then code else code ++ TERMINATOR) 0 0 c0 input1
    cases b
    · rfl
    · rcases rem with _ | ⟨b1, _ | ⟨b2, _ | ⟨b3, _ | ⟨b4, rem2⟩⟩⟩⟩ <;> dsimp only <;> try rfl
      by_cases h67 : b4 = 67
      · rw [if_pos h67]
      · rw [if_neg h67]

theorem transmitCode_result_ne_valueError (code : List Int) (input : List Nat)
    (hbad : ¬(code.length < 2 ∨ code.length % 2 = 1)) :
    (transmitCode code input).result ≠ Except.error PyErr.valueError := by
  unfold transmitCode
  rw [if_neg hbad]
  cases input with
  | nil => simp
  | cons c0 input1 =>
    dsimp only
    obtain ⟨b, chs, rem⟩ := sendLoop
      (if lastTwo code = TERMINATOR then code else code ++ TERMINATOR) 0 0 c0 input1
    cases b
    · exact finallySampling_ok_ne_valueError _ _
    · rcases rem with _ | ⟨b1, _ | ⟨b2, _ | ⟨b3, _ | ⟨b4, rem2⟩⟩⟩⟩ <;> dsimp only <;>
        try exact finallySampling_ok_ne_valueError _ _
      by_cases h67 : b4 = 67
      · rw [if_pos h67]; exact finallySampling_ok_ne_valueError _ _
      · rw [if_neg h67]; exact finallySampling_ok_ne_valueError _ _

theorem transmitCode_abort_behaviour (code : List Int) (input : List Nat)
    (h : (transmitCode code input).logged = true) :
    (transmitCode code input).resets = 2 ∧
    (transmitCode code input).samplingCalled = true ∧
    ((transmitCode code input).result = Except.ok Option.none ∨
     (transmitCode code input).result = Except.error PyErr.ioError) := by
  by_cases hbad : code.length < 2 ∨ code.length % 2 = 1
  · exfalso
    unfold transmitCode at h
    rw [if_pos hbad] at h
    simp at h
  · unfold transmitCode at h ⊢
    rw [if_neg hbad] at h ⊢
    cases input with
    | nil => simp at h
    | cons c0 input1 =>
      dsimp only at h ⊢
      rcases hsl : sendLoop
        (if lastTwo code = TERMINATOR then code else code ++ TERMINATOR) 0 0 c0 input1
        with ⟨b, chs, rem⟩
      rw [hsl] at h
      cases b
      · exact ⟨rfl, rfl, finallySampling_cases _ _⟩
      · rcases rem with _ | ⟨b1, _ | ⟨b2, _ | ⟨b3, _ | ⟨b4, rem2⟩⟩⟩⟩ <;> dsimp only at h ⊢ <;>
          try exact ⟨rfl, rfl, finallySampling_cases _ _⟩
        by_cases h67 : b4 = 67
        · rw [if_pos h67] at h
          simp at h
        · rw [if_neg h67] at h
          simp at h

/-! The claims. -/

/-- Claim C1: for every IrCode of even length at least 2 that already ends
in the sentinel 0xFF 0xFF, a transmitCode run whose send loop completes
writes exactly the code's bytes as its payload chunks, each chunk no
longer than the credit in force when it was written (the first credit
being the one read on entering transmit mode, the later ones the bytes
read after each chunk, i.e. successive bytes of the device stream). -/
theorem claim_C1_flow_control (code : List Int) (input : List Nat)
    (hrange : ∀ v ∈ code, 0 ≤ v ∧ v < 256)
    (hlen : 2 ≤ code.length) (heven : code.length % 2 = 0)
    (hterm : lastTwo code = TERMINATOR)
    (hdone : (transmitCode code input).loopDone = true) :
    (chunksFlat (transmitCode code input).chunks).length = code.length ∧
    (∀ p ∈ (transmitCode code input).chunks, p.2.length ≤ p.1) ∧
    (transmitCode code input).chunks.map Prod.fst =
      input.take (transmitCode code input).chunks.length := by
  have hbad : ¬(code.length < 2 ∨ code.length % 2 = 1) := by omega
  unfold transmitCode at hdone ⊢
  rw [if_neg hbad] at hdone ⊢
  rw [if_pos hterm] at hdone ⊢
  cases input with
  | nil => simp at hdone
  | cons c0 input1 =>
    dsimp only at hdone ⊢
    rcases hsl : sendLoop code 0 0 c0 input1 with ⟨b, chs, rem⟩
    rw [hsl] at hdone
    cases b
    · simp at hdone
    · obtain ⟨hsum, hbound⟩ := sendLoop_spec input1 code 0 c0 chs rem (Nat.zero_le _) hsl
      rw [Nat.sub_zero] at hsum
      have hcred := sendLoop_credits input1 code 0 0 c0 true chs rem hsl
      rcases rem with _ | ⟨b1, _ | ⟨b2, _ | ⟨b3, _ | ⟨b4, rem2⟩⟩⟩⟩ <;> dsimp only <;>
        try exact ⟨hsum, hbound, hcred⟩
      by_cases h67 : b4 = 67
      · rw [if_pos h67]
        exact ⟨hsum, hbound, hcred⟩
      · rw [if_neg h67]
        exact ⟨hsum, hbound, hcred⟩

theorem claim_C1_witness :
    (chunksFlat (transmitCode [255, 255] [2, 5, 0, 0, 2, 67, 9, 9, 9]).chunks).length =
      ([255, 255] : List Int).length ∧
    (∀ p ∈ (transmitCode [255, 255] [2, 5, 0, 0, 2, 67, 9, 9, 9]).chunks,
      p.2.length ≤ p.1) ∧
    (transmitCode [255, 255] [2, 5, 0, 0, 2, 67, 9, 9, 9]).chunks.map Prod.fst =
      [2, 5, 0, 0, 2, 67, 9, 9, 9].take
        (transmitCode [255, 255] [2, 5, 0, 0, 2, 67, 9, 9, 9]).chunks.length :=
  claim_C1_flow_control [255, 255] [2, 5, 0, 0, 2, 67, 9, 9, 9]
    (by decide) (by decide) (by decide) (by decide) (by decide)

/-- Claim C2, corrected: whenever receiveSignal returns, the returned
buffer ends in 0xFF 0xFF and has length at least 2; the even-length part
of the claim is false (see the counterexample). -/
theorem claim_C2_receive_sentinel (input buf : List Nat)
    (h : receiveSignal input = some buf) :
    lastTwo buf = [255, 255] ∧ 2 ≤ buf.length := by
  rcases input with _ | ⟨a, _ | ⟨b, _ | ⟨c, rest⟩⟩⟩
  · exact absurd h (by simp [receiveSignal])
  · exact absurd h (by simp [receiveSignal])
  · exact absurd h (by simp [receiveSignal])
  · simp only [receiveSignal] at h
    have h2 := captureLoop_lastTwo rest [] buf h
    refine ⟨h2, ?_⟩
    have h3 := congrArg List.length h2
    simp only [lastTwo, List.length_drop, List.length_cons, List.length_nil] at h3
    omega

/-- Claim C2 is false as stated: the stream 7, 255, 255 (after the 3
protocol-version bytes) yields the buffer [7, 255, 255], of odd length. -/
theorem claim_C2_counterexample :
    receiveSignal [0, 0, 0, 7, 255, 255] = some [7, 255, 255] ∧
    ¬ ([7, 255, 255] : List Nat).length % 2 = 0 := by decide

theorem claim_C2_witness :
    lastTwo ([255, 255] : List Nat) = [255, 255] ∧ 2 ≤ ([255, 255] : List Nat).length :=
  claim_C2_receive_sentinel [0, 0, 0, 255, 255] [255, 255] (by decide)

/-- Claim C3, corrected: when an exception is raised during the send loop
or the completion-report read (the cases in which the bare except handler
runs, marked by the abort log), transmitCode logs the failure and calls
reset(); but it then returns the Python value None (falling off the end
of the function), not False, when the finally clause's setSamplingMode
succeeds, and propagates that clause's exception when it does not. -/
theorem claim_C3_abort (code : List Int) (input : List Nat)
    (h : (transmitCode code input).logged = true) :
    1 ≤ (transmitCode code input).resets ∧
    (transmitCode code input).samplingCalled = true ∧
    ((transmitCode code input).result = Except.ok Option.none ∨
     (transmitCode code input).result = Except.error PyErr.ioError) := by
  obtain ⟨h1, h2, h3⟩ := transmitCode_abort_behaviour code input h
  exact ⟨by omega, h2, h3⟩

/-- Claim C3 is false as stated: an exception in the send loop (here a
bytearray range error on the value 300) is logged and resets the device,
but the caller receives None, not the boolean False. -/
theorem claim_C3_counterexample :
    (transmitCode [300, 300] [4, 9, 9, 9]).logged = true ∧
    (transmitCode [300, 300] [4, 9, 9, 9]).result = Except.ok Option.none ∧
    (Except.ok Option.none : Except PyErr (Option Bool)) ≠
      Except.ok (Option.some false) := by decide

theorem claim_C3_witness :
    1 ≤ (transmitCode [300, 300] [4, 9, 9, 9]).resets ∧
    (transmitCode [300, 300] [4, 9, 9, 9]).samplingCalled = true ∧
    ((transmitCode [300, 300] [4, 9, 9, 9]).result = Except.ok Option.none ∨
     (transmitCode [300, 300] [4, 9, 9, 9]).result = Except.error PyErr.ioError) :=
  claim_C3_abort [300, 300] [4, 9, 9, 9] (by decide)

/-- Claim C4, corrected: getVersion calls setSamplingMode on every exit
path; transmitCode calls it on every exit path that passes argument
validation and reaches the transmit-mode entry read, but not when it
raises the ValueError for a short or odd code (and not when the
transmit-mode entry read itself fails). -/
theorem claim_C4_sampling_restored (code : List Int) (input : List Nat) :
    (getVersion input).samplingCalled = true ∧
    (¬(code.length < 2 ∨ code.length % 2 = 1) → input ≠ [] →
      (transmitCode code input).samplingCalled = true) := by
  constructor
  · rcases input with _ | ⟨a, _ | ⟨b, _ | ⟨c, _ | ⟨d, r⟩⟩⟩⟩ <;> rfl
  · intro hbad hne
    exact transmitCode_samplingCalled code input hbad hne

/-- Claim C4 is false as stated: the ValueError exit of transmitCode (a
failure path) returns to the caller without calling enterSamplingMode. -/
theorem claim_C4_counterexample :
    (transmitCode [1] [0, 0, 0, 0, 0, 0, 0]).result = Except.error PyErr.valueError ∧
    (transmitCode [1] [0, 0, 0, 0, 0, 0, 0]).samplingCalled = false := by decide

theorem claim_C4_witness :
    (getVersion []).samplingCalled = true ∧
    (transmitCode [1, 2] [0]).samplingCalled = true :=
  ⟨(claim_C4_sampling_restored [1, 2] []).1,
   (claim_C4_sampling_restored [1, 2] [0]).2 (by decide) (by decide)⟩

/-- Claim C5, corrected: getVersion resets, writes the byte v, reads
exactly 4 bytes, and returns the first 2 bytes as the hardware identifier
together with the last 2 bytes interpreted via Python int() as the
decimal number spelled by the two ASCII characters — not as a big-endian
unsigned 16-bit integer (see the counterexample). -/
theorem claim_C5_getVersion (h1 h2 r1 r2 : Nat) (rest : List Nat)
    (hd1 : isDigitByte r1 = true) (hd2 : isDigitByte r2 = true)
    (hrest : 3 ≤ rest.length) :
    (getVersion (h1 :: h2 :: r1 :: r2 :: rest)).result =
      Except.ok ([h1, h2], (r1 - 48) * 10 + (r2 - 48)) ∧
    (getVersion (h1 :: h2 :: r1 :: r2 :: rest)).writes =
      resetWrites ++ [118] ++ samplingWrites := by
  refine ⟨?_, rfl⟩
  unfold getVersion
  dsimp only
  rw [hd1, hd2]
  simp only [Bool.and_self, if_true]
  exact finallySampling_of_long _ rest hrest

/-- Claim C5 is false as stated: on the 4 version bytes 86 50 53 48
(ASCII V 2 5 0) the code returns revision 50, while the big-endian
16-bit reading of the last two bytes would be 53 * 256 + 48 = 13616. -/
theorem claim_C5_counterexample :
    (getVersion [86, 50, 53, 48, 9, 9, 9]).result = Except.ok ([86, 50], 50) ∧
    (50 : Nat) ≠ 53 * 256 + 48 := by decide

theorem claim_C5_witness :
    (getVersion [86, 50, 53, 48, 9, 9, 9]).result = Except.ok ([86, 50], 50) ∧
    (getVersion [86, 50, 53, 48, 9, 9, 9]).writes =
      resetWrites ++ [118] ++ samplingWrites :=
  claim_C5_getVersion 86 50 53 48 [9, 9, 9] (by decide) (by decide) (by decide)

/-- Claim C6: transmitCode raises ValueError exactly when the code has
length < 2 or odd length, and in that case performs no I/O at all: no
byte is written, no reset is issued, and sampling mode is not touched
(the check precedes every read and write in the function body). -/
theorem claim_C6_validation (code : List Int) (input : List Nat) :
    ((transmitCode code input).result = Except.error PyErr.valueError ↔
      (code.length < 2 ∨ code.length % 2 = 1)) ∧
    ((code.length < 2 ∨ code.length % 2 = 1) →
      (transmitCode code input).writes = [] ∧
      (transmitCode code input).resets = 0 ∧
      (transmitCode code input).samplingCalled = false) := by
  by_cases hbad : code.length < 2 ∨ code.length % 2 = 1
  · constructor
    · refine ⟨fun _ => hbad, fun _ => ?_⟩
      unfold transmitCode
      rw [if_pos hbad]
    · intro _
      unfold transmitCode
      rw [if_pos hbad]
      exact ⟨rfl, rfl, rfl⟩
  · exact ⟨⟨fun h => absurd h (transmitCode_result_ne_valueError code input hbad),
      fun h => absurd h hbad⟩, fun h => absurd h hbad⟩

theorem claim_C6_witness :
    (transmitCode [1] [9, 9, 9]).result = Except.error PyErr.valueError ∧
    (transmitCode [1] [9, 9, 9]).writes = [] ∧
    (transmitCode [1] [9, 9, 9]).resets = 0 ∧
    (transmitCode [1] [9, 9, 9]).samplingCalled = false :=
  ⟨((claim_C6_validation [1] [9, 9, 9]).1).mpr (by decide),
   (claim_C6_validation [1] [9, 9, 9]).2 (by decide)⟩

/-- Claim C9: setColour with an unrecognized name is a silent no-op with
no I/O; with a recognized colour present in the ButtonMap it hands
exactly the stored byte list to transmitCode (which leaves it unchanged
when it already ends in the sentinel); with a recognized colour absent
from the map it raises KeyError, an outcome distinct from the no-op. -/
theorem claim_C9_setColour (buttons : ButtonMap) (colour : String) (input : List Nat) :
    (colour ∉ coloursList → setColour buttons colour = ColourAction.noop) ∧
    (colour ∈ coloursList → ∀ code, findButton buttons colour = some code →
      setColour buttons colour = ColourAction.transmit code ∧
      (lastTwo code = TERMINATOR → (transmitCode code input).codeAfter = code)) ∧
    (colour ∈ coloursList → findButton buttons colour = none →
      setColour buttons colour = ColourAction.keyError ∧
      ColourAction.keyError ≠ ColourAction.noop) := by
  refine ⟨?_, ?_, ?_⟩
  · intro h
    unfold setColour
    rw [if_neg h]
  · intro h code hf
    constructor
    · unfold setColour
      rw [if_pos h, hf]
    · exact fun hterm => transmitCode_codeAfter_term code input hterm
  · intro h hf
    refine ⟨?_, by simp⟩
    unfold setColour
    rw [if_pos h, hf]

theorem claim_C9_witness :
    setColour [("white", [1, 2, 255, 255])] "white" =
      ColourAction.transmit [1, 2, 255, 255] ∧
    (transmitCode [1, 2, 255, 255] []).codeAfter = [1, 2, 255, 255] ∧
    setColour [("white", [1, 2, 255, 255])] "notacolour" = ColourAction.noop ∧
    setColour [] "white" = ColourAction.keyError := by
  have h2 := (claim_C9_setColour [("white", [1, 2, 255, 255])] "white" []).2.1
    (by decide) [1, 2, 255, 255] (by rfl)
  have h3 := (claim_C9_setColour [("white", [1, 2, 255, 255])] "notacolour" []).1
    (by decide)
  have h4 := ((claim_C9_setColour [] "white" []).2.2 (by decide) (by rfl)).1
  exact ⟨h2.1, h2.2 (by decide), h3, h4⟩

/-- Claim C10: a valid code that does not already end in the sentinel is
extended in place, so after the call the caller's list is the old list
with 0xFF 0xFF appended: two bytes longer and sentinel-terminated. -/
theorem claim_C10_extend_in_place (code : List Int) (input : List Nat)
    (hlen : 2 ≤ code.length) (heven : code.length % 2 = 0)
    (hterm : lastTwo code ≠ TERMINATOR) :
    (transmitCode code input).codeAfter = code ++ TERMINATOR ∧
    (transmitCode code input).codeAfter.length = code.length + 2 ∧
    lastTwo (transmitCode code input).codeAfter = TERMINATOR := by
  have hbad : ¬(code.length < 2 ∨ code.length % 2 = 1) := by omega
  have h1 : (transmitCode code input).codeAfter = code ++ TERMINATOR := by
    rw [transmitCode_codeAfter code input hbad, if_neg hterm]
  refine ⟨h1, ?_, ?_⟩
  · rw [h1]
    simp [TERMINATOR]
  · rw [h1]
    exact lastTwo_append_two code 255 255

theorem claim_C10_witness :
    (transmitCode [1, 2] []).codeAfter = [1, 2] ++ TERMINATOR ∧
    (transmitCode [1, 2] []).codeAfter.length = ([1, 2] : List Int).length + 2 ∧
    lastTwo (transmitCode [1, 2] []).codeAfter = TERMINATOR :=
  claim_C10_extend_in_place [1, 2] [] (by decide) (by decide) (by decide)

theorem digitVal_digitChar (d : Nat) (h : d < 10) : digitVal (digitChar d) = d := by
  interval_cases d <;> decide

theorem isDigit_digitChar (d : Nat) (h : d < 10) : (digitChar d).isDigit = true := by
  interval_cases d <;> decide

theorem natCharsAux_digits (fuel : Nat) : ∀ n, ∀ c ∈ natCharsAux fuel n, c.isDigit = true := by
  induction fuel with
  | zero => intro n c hc; simp [natCharsAux] at hc
  | succ f ih =>
    intro n c hc
    simp only [natCharsAux] at hc
    split at hc
    · simp at hc
    · rcases List.mem_append.mp hc with h1 | h2
      · exact ih (n / 10) c h1
      · simp at h2
        subst h2
        exact isDigit_digitChar (n % 10) (Nat.mod_lt _ (by norm_num))

theorem natChars_digits (n : Nat) : ∀ c ∈ natChars n, c.isDigit = true := by
  unfold natChars
  by_cases h : n = 0
  · subst h
    intro c hc
    simp at hc
    subst hc
    decide
  · rw [if_neg h]
    exact natCharsAux_digits n n

theorem natChars_ne_nil (n : Nat) : natChars n ≠ [] := by
  unfold natChars
  by_cases h : n = 0
  · subst h; simp
  · rw [if_neg h]
    cases n with
    | zero => exact absurd rfl h
    | succ m => simp [natCharsAux, h]

theorem valNat_append (acc : Nat) (xs : List Char) (c : Char) :
    valNat acc (xs ++ [c]) = (valNat acc xs) * 10 + digitVal c := by
  simp [valNat, List.foldl_append]

theorem valNat_natCharsAux (fuel : Nat) : ∀ n acc, n ≤ fuel →
    valNat acc (natCharsAux fuel n) = acc * 10 ^ (natCharsAux fuel n).length + n := by
  induction fuel with
  | zero =>
    intro n acc h
    interval_cases n
    simp [natCharsAux, valNat]
  | succ f ih =>
    intro n acc h
    by_cases hn : n = 0
    · subst hn; simp [natCharsAux, valNat]
    · simp only [natCharsAux, if_neg hn]
      rw [valNat_append, List.length_append]
      have hdiv : n / 10 ≤ f := by
        have := Nat.div_lt_self (Nat.pos_of_ne_zero hn) (by norm_num : 1 < 10)
        omega
      rw [ih (n / 10) acc hdiv]
      rw [digitVal_digitChar (n % 10) (Nat.mod_lt _ (by norm_num))]
      simp only [List.length_cons, List.length_nil]
      rw [pow_succ]
      have key : (n / 10) * 10 + n % 10 = n := by omega
      have expand : (acc * 10 ^ (natCharsAux f (n / 10)).length + n / 10) * 10 + n % 10 =
          acc * (10 ^ (natCharsAux f (n / 10)).length * 10) + ((n / 10) * 10 + n % 10) := by
        ring
      rw [expand, key]

theorem valNat_natChars (n : Nat) : valNat 0 (natChars n) = n := by
  unfold natChars
  by_cases h : n = 0
  · subst h; decide
  · rw [if_neg h]
    have := valNat_natCharsAux n n 0 le_rfl
    simpa using this

theorem parseNatAux_digits (ds : List Char) : ∀ rest acc,
    (∀ c ∈ ds, c.isDigit = true) → noDigitStart rest →
    parseNatAux (ds ++ rest) acc = (valNat acc ds, rest) := by
  induction ds with
  | nil =>
    intro rest acc hds hrest
    cases rest with
    | nil => rfl
    | cons c r =>
      simp only [List.nil_append, parseNatAux]
      rw [if_neg (by simp [noDigitStart] at hrest; simp [hrest])]
      rfl
  | cons d dt ih =>
    intro rest acc hds hrest
    simp only [List.cons_append, parseNatAux]
    rw [if_pos (hds d (by simp))]
    simp only [List.append_eq]
    rw [ih rest _ (fun c hc => hds c (by simp [hc])) hrest]
    rfl

theorem parseNat_encode (n : Nat) (rest : List Char) (hrest : noDigitStart rest) :
    parseNat (natChars n ++ rest) = some (n, rest) := by
  rcases hne : natChars n with _ | ⟨d, dt⟩
  · exact absurd hne (natChars_ne_nil n)
  · have hd : d.isDigit = true := natChars_digits n d (by rw [hne]; simp)
    have hdt : ∀ c ∈ dt, c.isDigit = true := fun c hc =>
      natChars_digits n c (by rw [hne]; simp [hc])
    simp only [List.cons_append, parseNat]
    rw [if_pos hd]
    rw [parseNatAux_digits dt rest _ hdt hrest]
    have hval : valNat 0 (natChars n) = n := valNat_natChars n
    rw [hne] at hval
    simp only [valNat, List.foldl_cons] at hval
    simp only [Nat.zero_mul, Nat.zero_add] at hval
    simp only [valNat]
    rw [hval]

theorem parseInt_encode (v : Int) (hv : 0 ≤ v) (rest : List Char) (hrest : noDigitStart rest) :
    parseInt (intChars v ++ rest) = some (v, rest) := by
  unfold intChars
  rw [if_neg (by omega : ¬v < 0)]
  rcases hne : natChars v.toNat with _ | ⟨d, dt⟩
  · exact absurd hne (natChars_ne_nil _)
  · have hd : d.isDigit = true := natChars_digits _ d (by rw [hne]; simp)
    have hdash : ¬d = '-' := by
      intro hh
      rw [hh] at hd
      exact absurd hd (by decide)
    simp only [List.cons_append, parseInt]
    rw [if_neg hdash]
    have hback : d :: (dt ++ rest) = natChars v.toNat ++ rest := by rw [hne]; simp
    rw [hback, parseNat_encode v.toNat rest hrest]
    simp [Int.toNat_of_nonneg hv]

theorem skipWs_cons_not_ws (c : Char) (r : List Char) (h : isWs c = false) :
    skipWs (c :: r) = c :: r := by
  simp [skipWs, List.dropWhile_cons, h]

theorem skipWs_space (r : List Char) : skipWs (' ' :: r) = skipWs r := by
  simp [skipWs, List.dropWhile_cons, isWs]

theorem isWs_false_of_digit (c : Char) (h : c.isDigit = true) : isWs c = false := by
  cases hw : isWs c
  · rfl
  · exfalso
    simp only [isWs, decide_eq_true_eq] at hw
    rcases hw with h1 | h1 | h1 | h1 <;> subst h1 <;> exact absurd h (by decide)

theorem skipWs_intChars (v : Int) (hv : 0 ≤ v) (X : List Char) :
    skipWs (intChars v ++ X) = intChars v ++ X := by
  unfold intChars
  rw [if_neg (by omega : ¬v < 0)]
  rcases hne : natChars v.toNat with _ | ⟨d, dt⟩
  · exact absurd hne (natChars_ne_nil _)
  · have hd := natChars_digits v.toNat d (by rw [hne]; simp)
    simp only [List.cons_append]
    exact skipWs_cons_not_ws d _ (isWs_false_of_digit d hd)

theorem noDigitStart_encodeIntsTail (vt : List Int) (rest : List Char) :
    noDigitStart (encodeIntsTail vt ++ ']' :: rest) := by
  cases vt with
  | nil => simp [encodeIntsTail, noDigitStart]
  | cons v vt => simp [encodeIntsTail, noDigitStart]

theorem parseArrTail_encode (vt : List Int) : ∀ fuel rest,
    vt.length < fuel → (∀ v ∈ vt, 0 ≤ v) →
    parseArrTail fuel (encodeIntsTail vt ++ ']' :: rest) = some (vt, rest) := by
  induction vt with
  | nil =>
    intro fuel rest hf hv
    cases fuel with
    | zero => omega
    | succ f =>
      simp only [encodeIntsTail, List.nil_append, parseArrTail]
      rw [skipWs_cons_not_ws ']' rest (by decide)]
      dsimp only
      rw [if_pos rfl]
  | cons v vt ih =>
    intro fuel rest hf hv
    cases fuel with
    | zero => exact absurd hf (by omega)
    | succ f =>
      simp only [encodeIntsTail, List.cons_append, List.append_assoc, parseArrTail]
      rw [skipWs_cons_not_ws ',' _ (by decide)]
      dsimp only
      rw [if_neg (by decide : ¬(',' = ']')), if_pos rfl]
      rw [skipWs_space]
      rw [skipWs_intChars v (hv v (by simp)) _]
      rw [parseInt_encode v (hv v (by simp)) _ (noDigitStart_encodeIntsTail vt rest)]
      dsimp only
      rw [ih f rest (by simp at hf; omega) (fun x hx => hv x (by simp [hx]))]

theorem intChars_head (v : Int) (hv : 0 ≤ v) :
    ∃ d dt, intChars v = d :: dt ∧ d.isDigit = true := by
  have hform : intChars v = natChars v.toNat := by
    unfold intChars
    rw [if_neg (by omega : ¬v < 0)]
  rcases hne : natChars v.toNat with _ | ⟨d, dt⟩
  · exact absurd hne (natChars_ne_nil _)
  · exact ⟨d, dt, by rw [hform, hne], natChars_digits _ d (by rw [hne]; simp)⟩

theorem parseArrElems_encode (vs : List Int) (fuel : Nat) (rest : List Char)
    (hf : vs.length ≤ fuel) (hv : ∀ v ∈ vs, 0 ≤ v) :
    parseArrElems fuel (encodeInts vs ++ ']' :: rest) = some (vs, rest) := by
  cases vs with
  | nil =>
    simp only [encodeInts, List.nil_append, parseArrElems]
    rw [skipWs_cons_not_ws ']' rest (by decide)]
    rfl
  | cons v vt =>
    have hv0 : (0 : Int) ≤ v := hv v (by simp)
    simp only [encodeInts, parseArrElems, List.append_assoc]
    rw [skipWs_intChars v hv0 _]
    obtain ⟨d, dt, hdd, hd⟩ := intChars_head v hv0
    rw [hdd]
    simp only [List.cons_append]
    rw [if_neg (show ¬d = ']' from fun hh => by rw [hh] at hd; exact absurd hd (by decide))]
    have hback : d :: (dt ++ (encodeIntsTail vt ++ ']' :: rest)) =
        intChars v ++ (encodeIntsTail vt ++ ']' :: rest) := by
      rw [hdd]
      simp
    rw [hback]
    rw [parseInt_encode v hv0 _ (noDigitStart_encodeIntsTail vt rest)]
    dsimp only
    rw [parseArrTail_encode vt fuel rest (by simp at hf ⊢; omega)
      (fun x hx => hv x (by simp [hx]))]

theorem parseArr_encode (vs : List Int) (fuel : Nat) (rest : List Char)
    (hf : vs.length ≤ fuel) (hv : ∀ v ∈ vs, 0 ≤ v) :
    parseArr fuel (encodeArr vs ++ rest) = some (vs, rest) := by
  simp only [encodeArr, List.cons_append, List.append_assoc, parseArr]
  simp only [if_true, List.nil_append]
  exact parseArrElems_encode vs fuel rest hf hv

theorem parseKeyAux_encode (k : List Char) : ∀ acc rest, goodKeyChars k →
    parseKeyAux (k ++ '\"' :: rest) acc = some (acc.reverse ++ k, rest) := by
  induction k with
  | nil =>
    intro acc rest h
    simp [parseKeyAux]
  | cons c t ih =>
    intro acc rest h
    simp only [List.cons_append, parseKeyAux]
    rw [if_neg (h c (by simp)).1, if_neg (h c (by simp)).2]
    simp only [List.append_eq]
    rw [ih (c :: acc) rest (fun x hx => h x (by simp [hx]))]
    simp

theorem parseKey_encode (k : String) (rest : List Char) (hk : goodKeyChars k.data) :
    parseKey ('\"' :: (k.data ++ '\"' :: rest)) = some (k, rest) := by
  simp only [parseKey]
  rw [parseKeyAux_encode k.data [] rest hk]
  rfl

theorem parseEntry_space (fuel : Nat) (s : List Char) :
    parseEntry fuel (' ' :: s) = parseEntry fuel s := by
  simp only [parseEntry, skipWs_space]

theorem parseEntry_encode (p : String × List Int) (fuel : Nat) (rest : List Char)
    (hk : goodKeyChars p.1.data) (hf : p.2.length ≤ fuel) (hv : ∀ v ∈ p.2, 0 ≤ v) :
    parseEntry fuel (encodeEntry p ++ rest) = some (p, rest) := by
  obtain ⟨k, vs⟩ := p
  simp only [encodeEntry, List.cons_append, List.append_assoc, parseEntry]
  rw [skipWs_cons_not_ws '\"' _ (by decide)]
  rw [parseKey_encode k _ hk]
  dsimp only
  rw [skipWs_cons_not_ws ':' _ (by decide)]
  dsimp only
  rw [if_pos rfl]
  rw [skipWs_space]
  have harr : skipWs (encodeArr vs ++ rest) = encodeArr vs ++ rest := by
    simp only [encodeArr, List.cons_append]
    exact skipWs_cons_not_ws '[' _ (by decide)
  rw [harr]
  rw [parseArr_encode vs fuel rest hf hv]

theorem parseObjTail_encode (mt : List (String × List Int)) : ∀ fuel rest,
    weight mt < fuel → (∀ p ∈ mt, goodEntry p) →
    parseObjTail fuel (encodeEntriesTail mt ++ '\x7d' :: rest) = some (mt, rest) := by
  induction mt with
  | nil =>
    intro fuel rest hf hg
    cases fuel with
    | zero => exact absurd hf (by omega)
    | succ f =>
      simp only [encodeEntriesTail, List.nil_append, parseObjTail]
      rw [skipWs_cons_not_ws '\x7d' rest (by decide)]
      rfl
  | cons p mt ih =>
    intro fuel rest hf hg
    cases fuel with
    | zero => exact absurd hf (Nat.not_lt_zero _)
    | succ f =>
      simp only [encodeEntriesTail, List.cons_append, List.append_assoc, parseObjTail]
      rw [skipWs_cons_not_ws ',' _ (by decide)]
      dsimp only
      rw [if_neg (by decide : ¬(',' = '\x7d')), if_pos rfl]
      rw [parseEntry_space]
      rw [parseEntry_encode p f _ (hg p (by simp)).1
        (by simp only [weight] at hf; omega) (hg p (by simp)).2]
      dsimp only
      rw [ih f rest (by simp only [weight] at hf; omega) (fun q hq => hg q (by simp [hq]))]

theorem parseObj_encode (m : List (String × List Int)) (fuel : Nat)
    (hf : weight m < fuel) (hg : ∀ p ∈ m, goodEntry p) :
    parseObj fuel (jsonDump m) = some (m, []) := by
  cases m with
  | nil => rfl
  | cons p mt =>
    simp only [jsonDump, parseObj]
    have h1 : skipWs (encodeEntry p ++ (encodeEntriesTail mt ++ ['\x7d'])) =
        encodeEntry p ++ (encodeEntriesTail mt ++ ['\x7d']) := by
      simp only [encodeEntry, List.cons_append]
      exact skipWs_cons_not_ws '\"' _ (by decide)
    simp only [if_true]
    rw [h1]
    simp only [encodeEntry, List.cons_append, List.append_assoc]
    rw [if_neg (by decide : ¬('\"' = '\x7d'))]
    have hback : '\"' :: (p.1.data ++ ('\"' :: ':' :: ' ' ::
        (encodeArr p.2 ++ (encodeEntriesTail mt ++ ['\x7d'])))) =
        encodeEntry p ++ (encodeEntriesTail mt ++ ['\x7d']) := by
      simp [encodeEntry]
    rw [hback]
    rw [parseEntry_encode p fuel _ (hg p (by simp)).1
      (by simp only [weight] at hf; omega) (hg p (by simp)).2]
    dsimp only
    rw [parseObjTail_encode mt fuel [] (by simp only [weight] at hf; omega)
      (fun q hq => hg q (by simp [hq]))]

theorem one_le_intChars_length (v : Int) : 1 ≤ (intChars v).length := by
  unfold intChars
  split
  · simp
  · have := natChars_ne_nil v.toNat
    exact List.length_pos.mpr this

theorem length_encodeIntsTail_ge (vs : List Int) :
    vs.length ≤ (encodeIntsTail vs).length := by
  induction vs with
  | nil => simp [encodeIntsTail]
  | cons v vt ih =>
    simp only [encodeIntsTail, List.length_cons, List.length_append]
    have := one_le_intChars_length v
    omega

theorem length_encodeArr_ge (vs : List Int) :
    vs.length + 1 ≤ (encodeArr vs).length := by
  cases vs with
  | nil => simp [encodeArr, encodeInts]
  | cons v vt =>
    simp only [encodeArr, encodeInts, List.length_cons, List.length_append]
    have h1 := one_le_intChars_length v
    have h2 := length_encodeIntsTail_ge vt
    omega

theorem length_encodeEntry_ge (p : String × List Int) :
    p.2.length + 1 ≤ (encodeEntry p).length := by
  simp only [encodeEntry, List.length_cons, List.length_append]
  have := length_encodeArr_ge p.2
  omega

theorem weight_le_encodeEntriesTail (mt : List (String × List Int)) :
    weight mt ≤ (encodeEntriesTail mt).length := by
  induction mt with
  | nil => simp [weight, encodeEntriesTail]
  | cons p mt ih =>
    simp only [weight, encodeEntriesTail, List.length_cons, List.length_append]
    have := length_encodeEntry_ge p
    omega

theorem weight_le_jsonDump (m : List (String × List Int)) :
    weight m ≤ (jsonDump m).length := by
  cases m with
  | nil => simp [weight, jsonDump]
  | cons p mt =>
    simp only [weight, jsonDump, List.length_cons, List.length_append]
    have h1 := length_encodeEntry_ge p
    have h2 := weight_le_encodeEntriesTail mt
    omega

theorem jsonLoad_jsonDump (m : List (String × List Int))
    (hg : ∀ p ∈ m, goodEntry p) : jsonLoad (jsonDump m) = some m := by
  unfold jsonLoad
  have hskip : skipWs (jsonDump m) = jsonDump m := by
    cases m with
    | nil => decide
    | cons p mt =>
      simp only [jsonDump]
      exact skipWs_cons_not_ws '\x7b' _ (by decide)
  rw [hskip]
  rw [parseObj_encode m ((jsonDump m).length + 1)
    (by have := weight_le_jsonDump m; omega) hg]
  rfl

/-- Claim C7: for every valid ButtonMap (keys among the 24 fixed button
names, values integer lists with entries 0-255 of length at least 2),
loading back the dumped persisted form yields the same map. -/
theorem claim_C7_roundtrip (m : List (String × List Int))
    (hkeys : ∀ p ∈ m, p.1 ∈ buttonNames)
    (hvals : ∀ p ∈ m, 2 ≤ p.2.length ∧ ∀ v ∈ p.2, 0 ≤ v ∧ v ≤ 255) :
    jsonLoad (jsonDump m) = some m := by
  apply jsonLoad_jsonDump
  intro p hp
  refine ⟨?_, fun v hv => ((hvals p hp).2 v hv).1⟩
  have hall : ∀ k ∈ buttonNames, goodKeyChars k.data := by decide
  exact hall p.1 (hkeys p hp)

theorem claim_C7_witness :
    jsonLoad (jsonDump [("white", [1, 2, 255, 255]), ("on", [0, 255])]) =
      some [("white", [1, 2, 255, 255]), ("on", [0, 255])] :=
  claim_C7_roundtrip [("white", [1, 2, 255, 255]), ("on", [0, 255])]
    (by decide) (by decide)

/-- Claim C8, corrected: loadButtons validates nothing about the values;
a file that parses as JSON is assigned verbatim, out-of-range integers
included. What does hold: a missing file leaves the map unchanged, any
successful load yields exactly the full decode of the file, and a file
that fails to parse raises at load time, so the mapper never starts with
a partially decoded map. -/
theorem claim_C8_load (file : Option (List Char)) (current m : List (String × List Int)) :
    (loadButtons file current = Except.ok m →
      (file = none ∧ m = current) ∨ ∃ t, file = some t ∧ jsonLoad t = some m) ∧
    (∀ t, file = some t → jsonLoad t = none →
      loadButtons file current = Except.error PyErr.valueError) := by
  constructor
  · intro h
    cases file with
    | none =>
      left
      refine ⟨rfl, ?_⟩
      simp only [loadButtons, Except.ok.injEq] at h
      exact h.symm
    | some t =>
      right
      refine ⟨t, rfl, ?_⟩
      simp only [loadButtons] at h
      rcases hd : jsonLoad t with _ | m2
      · rw [hd] at h
        exact absurd h (by simp)
      · rw [hd] at h
        simp only [Except.ok.injEq] at h
        exact congrArg some h
  · intro t ht hd
    subst ht
    simp only [loadButtons, hd]

/-- Claim C8 is false as stated: a persisted file whose entry holds the
integer 999, far outside 0-255, is loaded without complaint. -/
theorem claim_C8_counterexample :
    loadButtons (some ("\x7b\"on\": [1, 999]\x7d".data)) [] =
      Except.ok [("on", [1, 999])] ∧ ¬((999 : Int) ≤ 255) := by decide

theorem claim_C8_witness :
    loadButtons (some ("junk".data)) [] = Except.error PyErr.valueError :=
  (claim_C8_load (some ("junk".data)) [] []).2 ("junk".data) rfl (by decide)
